import Mathlib

/-!
# Verification of the embedded stopwatch / voltmeter firmware

Shallow embedding of `src/main.cpp` (NUCLEO-F401RE + Arduino Multifunction
Shield firmware).  Globals become fields of an explicit `MCUState`; the pin
bit-banging of the shift register is modelled as a trace of `PinEvent`s;
C `int` arithmetic is modelled with `Int` together with the truncating
division / remainder (`Int.tdiv` / `Int.tmod`), matching C semantics;
the `float` voltages are modelled with `ℚ`.
-/

namespace Firmware

/-- `const uint8_t digitBits[10]`: 7-segment display bit patterns for the
digits 0–9, values as written in the source. -/
def digitBits : List Nat :=
  [0xC0, 0xF9, 0xA4, 0xB0, 0x99, 0x92, 0x82, 0xF8, 0x80, 0x90]

/-- `const uint8_t digitPos[4]`: digit-select bytes for the 4 display
positions. -/
def digitPos : List Nat := [0x01, 0x02, 0x04, 0x08]

/-- `const float VREF = 3.3`: reference voltage. -/
def VREF : ℚ := 33 / 10

/-- `#define DP_POS 1`: the digit position that carries the decimal point. -/
def DP_POS : Nat := 1

/-- The mutable global state of the firmware:
`volatile int seconds, minutes`, `volatile bool showVolt`,
`volatile int currentDigit` (declared but never used after initialization),
and `float minVoltage = 3.3, maxVoltage = 0.0`. -/
structure MCUState where
  seconds : Int
  minutes : Int
  showVolt : Bool
  currentDigit : Int
  minVoltage : ℚ
  maxVoltage : ℚ
deriving DecidableEq

/-- The state at program start: all counters zero, mode flag clear,
`minVoltage = 3.3`, `maxVoltage = 0.0`. -/
def initState : MCUState :=
  { seconds := 0, minutes := 0, showVolt := false, currentDigit := 0,
    minVoltage := 33 / 10, maxVoltage := 0 }

/-- An observable event on the output pins (`dataPin`, `clockPin`,
`latchPin`) or a busy delay. -/
inductive PinEvent where
  | data (bit : Nat)
  | clockHigh
  | clockLow
  | latchLow
  | latchHigh
  | sleep (ms : Nat)
deriving DecidableEq

/-- `shiftOutMSBFirst(uint8_t value)`: the loop `for (int i = 7; i >= 0; i--)`
emits `dataPin = (value >> i) & 1` followed by a clock pulse; iteration
number `j` (counting up from 0) uses `i = 7 - j`. -/
def shiftOutMSBFirst (value : Nat) : List PinEvent :=
  (List.range 8).flatMap (fun j =>
    [PinEvent.data ((value >>> (7 - j)) &&& 1), PinEvent.clockHigh,
     PinEvent.clockLow])

/-- `writeToShiftRegister(uint8_t bits, uint8_t digit)`: latch low, shift out
the segment byte, shift out the digit-select byte, latch high. -/
def writeToShiftRegister (bits digit : Nat) : List PinEvent :=
  PinEvent.latchLow ::
    (shiftOutMSBFirst bits ++ shiftOutMSBFirst digit ++ [PinEvent.latchHigh])

/-- `updateTime()`: `seconds++; if (seconds >= 60) { seconds = 0;
minutes = (minutes + 1) % 100; }`.  C `%` truncates toward zero, hence
`Int.tmod`. -/
def updateTime (s : MCUState) : MCUState :=
  let sec := s.seconds + 1
  if sec ≥ 60 then
    { s with seconds := 0, minutes := Int.tmod (s.minutes + 1) 100 }
  else
    { s with seconds := sec }

/-- The local array `int digits[4]` of `updateDisplay`, computed from
`dispVal` with C truncating division and remainder. -/
def digitsOf (dispVal : Int) : List Int :=
  [Int.tmod (Int.tdiv dispVal 1000) 10,
   Int.tmod (Int.tdiv dispVal 100) 10,
   Int.tmod (Int.tdiv dispVal 10) 10,
   Int.tmod dispVal 10]

/-- The C cast to `int` applied to a rational: truncation toward zero, as in
`dispVal = (voltage * 100);`. -/
def ratTruncToInt (q : ℚ) : Int := Int.tdiv q.num (q.den : Int)

/-- One iteration of the `for (int i = 0; i < 4; ++i)` loop body of
`updateDisplay`.  The accumulator carries the global state, the local
`dispVal`, and the pin-event trace.  `bits = digitBits[digits[i]]`; when
`showVolt && i == DP_POS` the decimal point is enabled
(`bits &= ~0x80`, i.e. `bits & 0x7F` on a byte), the sensor sample is
scaled to a voltage, the min/max observations are updated, and
`dispVal = (voltage * 100)` is reassigned (the `digits` array was already
computed, so this assignment does not feed back into this pass). -/
def dispBody (sample : ℚ) (digits : List Int)
    (acc : MCUState × Int × List PinEvent) (i : Nat) :
    MCUState × Int × List PinEvent :=
  let s := acc.1
  let dispVal := acc.2.1
  let evs := acc.2.2
  let bits := digitBits.getD (digits.getD i 0).toNat 0
  if s.showVolt && (i == DP_POS) then
    let bitsDP := bits &&& 0x7F
    let voltage := sample * VREF
    let s2 := { s with minVoltage := min s.minVoltage voltage,
                       maxVoltage := max s.maxVoltage voltage }
    (s2, ratTruncToInt (voltage * 100),
     evs ++ writeToShiftRegister bitsDP (digitPos.getD i 0) ++
       [PinEvent.sleep 4])
  else
    (s, dispVal,
     evs ++ writeToShiftRegister bits (digitPos.getD i 0) ++
       [PinEvent.sleep 4])

/-- `updateDisplay()`: `int dispVal = 0;` then the `digits` array is
computed from `dispVal`, then the 4-iteration refresh loop runs.  Returns
the updated global state, the final value of the local `dispVal`, and the
pin-event trace of the invocation.  `sample` is the value returned by
`pot.read()` during the pass (a float in [0, 1] on the hardware; the model
takes an arbitrary rational). -/
def updateDisplay (s : MCUState) (sample : ℚ) : MCUState × Int × List PinEvent :=
  let dispVal : Int := 0
  let digits := digitsOf dispVal
  (List.range 4).foldl (dispBody sample digits) (s, dispVal, [])

/-- `resetTimeISR()`: `seconds = 0; minutes = 0;`. -/
def resetTimeISR (s : MCUState) : MCUState :=
  { s with seconds := 0, minutes := 0 }

/-- `toggleVoltModeISR()`: `showVolt = true;`. -/
def toggleVoltModeISR (s : MCUState) : MCUState :=
  { s with showVolt := true }

/-- `releaseVoltModeISR()`: `showVolt = false;`. -/
def releaseVoltModeISR (s : MCUState) : MCUState :=
  { s with showVolt := false }

/-- The range invariant on the two time counters:
`0 ≤ seconds ≤ 59` and `0 ≤ minutes ≤ 99`. -/
def timeInv (s : MCUState) : Prop :=
  0 ≤ s.seconds ∧ s.seconds ≤ 59 ∧ 0 ≤ s.minutes ∧ s.minutes ≤ 99

instance (s : MCUState) : Decidable (timeInv s) := by
  unfold timeInv; infer_instance

/-- States reachable from `initState` under any interleaving of the ticker
callbacks and the three interrupt handlers. -/
inductive Reachable : MCUState → Prop
  | init : Reachable initState
  | time {s} : Reachable s → Reachable (updateTime s)
  | reset {s} : Reachable s → Reachable (resetTimeISR s)
  | toggle {s} : Reachable s → Reachable (toggleVoltModeISR s)
  | release {s} : Reachable s → Reachable (releaseVoltModeISR s)
  | disp {s} (sample : ℚ) : Reachable s → Reachable (updateDisplay s sample).1

/-- Iterate `updateDisplay` over a finite list of invocations; each list
entry supplies the value of the mode flag during that invocation and the
sensor sample read in it. -/
def runDisplays (s : MCUState) (inputs : List (Bool × ℚ)) : MCUState :=
  inputs.foldl (fun st p => (updateDisplay { st with showVolt := p.1 } p.2).1) s

/-- The number of complete shift-register writes in a pin-event trace,
counted by the closing latch strobes. -/
def countWrites (evs : List PinEvent) : Nat :=
  evs.countP (fun e => e == PinEvent.latchHigh)

/-- A concrete state with the mode flag set, used to evaluate
`updateDisplay` in voltage mode. -/
def voltTestState : MCUState :=
  { seconds := 0, minutes := 0, showVolt := true, currentDigit := 0,
    minVoltage := 33 / 10, maxVoltage := 0 }

/-! ## Helper lemmas -/

/-- The global state after one `updateDisplay` invocation: when the mode
flag is set, only the min/max voltage observations change; otherwise the
state is untouched. -/
lemma updateDisplay_state (s : MCUState) (q : ℚ) :
    (updateDisplay s q).1 =
      if s.showVolt then
        { s with minVoltage := min s.minVoltage (q * VREF),
                 maxVoltage := max s.maxVoltage (q * VREF) }
      else s := by
  obtain ⟨sec, minu, sv, cd, mnV, mxV⟩ := s
  cases sv <;> rfl

/-- The pin-event trace of one `updateDisplay` invocation, as a concrete
list: four shift-register writes of the digit-0 segment pattern `0xC0`
(with the decimal point enabled, `0x40`, at position `DP_POS` when the
mode flag is set), one per digit-select byte, each followed by the 4 ms
delay. -/
lemma updateDisplay_events (s : MCUState) (q : ℚ) :
    (updateDisplay s q).2.2 =
      if s.showVolt then
        writeToShiftRegister 0xC0 1 ++ [PinEvent.sleep 4] ++
          (writeToShiftRegister 0x40 2 ++ [PinEvent.sleep 4]) ++
          (writeToShiftRegister 0xC0 4 ++ [PinEvent.sleep 4]) ++
          (writeToShiftRegister 0xC0 8 ++ [PinEvent.sleep 4])
      else
        writeToShiftRegister 0xC0 1 ++ [PinEvent.sleep 4] ++
          (writeToShiftRegister 0xC0 2 ++ [PinEvent.sleep 4]) ++
          (writeToShiftRegister 0xC0 4 ++ [PinEvent.sleep 4]) ++
          (writeToShiftRegister 0xC0 8 ++ [PinEvent.sleep 4]) := by
  obtain ⟨sec, minu, sv, cd, mnV, mxV⟩ := s
  cases sv <;> rfl

/-- `updateDisplay` never touches the time counters. -/
lemma updateDisplay_counters (s : MCUState) (q : ℚ) :
    (updateDisplay s q).1.seconds = s.seconds ∧
    (updateDisplay s q).1.minutes = s.minutes := by
  rw [updateDisplay_state]
  split <;> exact ⟨rfl, rfl⟩

/-- One `updateDisplay` invocation can only lower `minVoltage`. -/
lemma updateDisplay_min_le (s : MCUState) (q : ℚ) :
    (updateDisplay s q).1.minVoltage ≤ s.minVoltage := by
  rw [updateDisplay_state]
  split
  · exact min_le_left _ _
  · exact le_refl _

/-- One `updateDisplay` invocation can only raise `maxVoltage`. -/
lemma updateDisplay_max_ge (s : MCUState) (q : ℚ) :
    s.maxVoltage ≤ (updateDisplay s q).1.maxVoltage := by
  rw [updateDisplay_state]
  split
  · exact le_max_left _ _
  · exact le_refl _

/-- Over any finite sequence of `updateDisplay` invocations, `minVoltage`
never increases. -/
lemma runDisplays_min_le (inputs : List (Bool × ℚ)) :
    ∀ s : MCUState, (runDisplays s inputs).minVoltage ≤ s.minVoltage := by
  induction inputs with
  | nil => intro s; exact le_refl _
  | cons p l ih =>
    intro s
    calc (runDisplays s (p :: l)).minVoltage
        = (runDisplays (updateDisplay { s with showVolt := p.1 } p.2).1 l).minVoltage := rfl
      _ ≤ (updateDisplay { s with showVolt := p.1 } p.2).1.minVoltage := ih _
      _ ≤ ({ s with showVolt := p.1 } : MCUState).minVoltage := updateDisplay_min_le _ _
      _ = s.minVoltage := rfl

/-- Over any finite sequence of `updateDisplay` invocations, `maxVoltage`
never decreases. -/
lemma runDisplays_max_ge (inputs : List (Bool × ℚ)) :
    ∀ s : MCUState, s.maxVoltage ≤ (runDisplays s inputs).maxVoltage := by
  induction inputs with
  | nil => intro s; exact le_refl _
  | cons p l ih =>
    intro s
    calc s.maxVoltage
        = ({ s with showVolt := p.1 } : MCUState).maxVoltage := rfl
      _ ≤ (updateDisplay { s with showVolt := p.1 } p.2).1.maxVoltage := updateDisplay_max_ge _ _
      _ ≤ (runDisplays (updateDisplay { s with showVolt := p.1 } p.2).1 l).maxVoltage := ih _

/-- `updateTime` preserves the counter range invariant. -/
lemma updateTime_timeInv {s : MCUState} (h : timeInv s) : timeInv (updateTime s) := by
  obtain ⟨h1, h2, h3, h4⟩ := h
  simp only [updateTime]
  split
  · refine ⟨le_refl 0, by norm_num, Int.tmod_nonneg 100 (by omega), ?_⟩
    rw [@Int.tmod_eq_emod (s.minutes + 1) 100 (by omega) (by omega)]
    dsimp only
    omega
  · rename_i hc
    refine ⟨?_, ?_, h3, h4⟩ <;> dsimp only <;> omega

/-- `resetTimeISR` establishes the counter range invariant outright. -/
lemma resetTimeISR_timeInv (s : MCUState) : timeInv (resetTimeISR s) :=
  ⟨le_refl 0, (by norm_num : (0 : Int) ≤ 59), le_refl 0,
   (by norm_num : (0 : Int) ≤ 99)⟩

/-! ## Claims -/

set_option maxRecDepth 4000

/-- C1: for every call to `updateTime` from a state satisfying the counter
range invariant, if `seconds` is 59 before the call then afterwards
`seconds` is 0 and `minutes` has been incremented modulo 100 (in
particular `minutes = 99` wraps to 0); otherwise `seconds` is incremented
by 1 and `minutes` is unchanged. -/
theorem updateTime_step_spec (s : MCUState) (h : timeInv s) :
    (s.seconds = 59 →
      (updateTime s).seconds = 0 ∧
      (updateTime s).minutes = Int.tmod (s.minutes + 1) 100 ∧
      (s.minutes = 99 → (updateTime s).minutes = 0)) ∧
    (s.seconds ≠ 59 →
      (updateTime s).seconds = s.seconds + 1 ∧
      (updateTime s).minutes = s.minutes) := by
  obtain ⟨sec, minu, sv, cd, mnV, mxV⟩ := s
  obtain ⟨h1, h2, h3, h4⟩ := h
  simp only at h1 h2 h3 h4
  constructor
  · intro h59
    simp only at h59
    subst h59
    refine ⟨rfl, rfl, ?_⟩
    intro h99
    simp only at h99
    subst h99
    rfl
  · intro h59
    simp only at h59
    unfold updateTime
    rw [if_neg]
    · exact ⟨rfl, rfl⟩
    · simp only
      omega

/-- Witness for C1: both branches of the step specification, evaluated at
concrete states (59:59 with minutes at the 99 wrap point, and the initial
state). -/
theorem updateTime_step_spec_witness :
    (updateTime { initState with seconds := 59, minutes := 99 }).minutes = 0 ∧
    (updateTime initState).seconds = 1 := by
  have h1 := updateTime_step_spec { initState with seconds := 59, minutes := 99 } (by decide)
  have h2 := updateTime_step_spec initState (by decide)
  exact ⟨(h1.1 rfl).2.2 rfl, (h2.2 (by decide)).1⟩

/-- C2: the `digits` array computed at the start of every `updateDisplay`
pass comes from the constant `dispVal = 0`, so it is `[0, 0, 0, 0]`, and
the pin-event trace of the pass is independent of the accumulated time:
zeroing `seconds` and `minutes` changes nothing in the emitted trace. -/
theorem updateDisplay_digits_always_zero (s : MCUState) (sample : ℚ) :
    digitsOf 0 = [0, 0, 0, 0] ∧
    (updateDisplay s sample).2.2 =
      (updateDisplay { s with seconds := 0, minutes := 0 } sample).2.2 := by
  refine ⟨by decide, ?_⟩
  rw [updateDisplay_events, updateDisplay_events]

/-- C3: with the mode flag set and a sensor sample of 1/2 (voltage 1.65),
the local `dispVal` ends the pass holding `voltage * 100 = 165`, whose
digit decomposition is `[0, 1, 6, 5]` — yet every segment byte actually
written during the pass is the digit-0 pattern `digitBits[0]` (with only
the decimal point enabled at position `DP_POS`), because the `digits`
array was computed from `dispVal = 0` before the loop.  Since the pattern
for digit 1 differs from the pattern for digit 0, the written digits do
not reflect the sampled voltage, contradicting the stated substitution and
the code's own doc comment that the display shows the time or voltage
value. -/
theorem updateDisplay_voltage_not_displayed :
    (updateDisplay voltTestState (1/2)).2.1 = 165 ∧
    digitsOf 165 = [0, 1, 6, 5] ∧
    (updateDisplay voltTestState (1/2)).2.2 =
      writeToShiftRegister (digitBits.getD 0 0) 1 ++ [PinEvent.sleep 4] ++
        (writeToShiftRegister (digitBits.getD 0 0 &&& 0x7F) 2 ++ [PinEvent.sleep 4]) ++
        (writeToShiftRegister (digitBits.getD 0 0) 4 ++ [PinEvent.sleep 4]) ++
        (writeToShiftRegister (digitBits.getD 0 0) 8 ++ [PinEvent.sleep 4]) ∧
    digitBits.getD 0 0 ≠ digitBits.getD 1 0 := by
  refine ⟨?_, by decide, ?_, by decide⟩
  · show ratTruncToInt ((1/2 : ℚ) * VREF * 100) = 165
    have h : ((1 : ℚ)/2 * VREF * 100) = 165 := by norm_num [VREF]
    rw [ratTruncToInt, h]
    norm_num
  · rw [updateDisplay_events]
    decide

/-- C4: over every finite sequence of `updateDisplay` invocations, with
arbitrary sensor samples and arbitrary mode-flag values per invocation,
`minVoltage` never increases and `maxVoltage` never decreases; and an
invocation with the mode flag clear leaves both unchanged. -/
theorem voltage_minmax_monotone (s : MCUState) (inputs : List (Bool × ℚ)) :
    (runDisplays s inputs).minVoltage ≤ s.minVoltage ∧
    s.maxVoltage ≤ (runDisplays s inputs).maxVoltage ∧
    (∀ t : MCUState, ∀ q : ℚ, t.showVolt = false →
      (updateDisplay t q).1.minVoltage = t.minVoltage ∧
      (updateDisplay t q).1.maxVoltage = t.maxVoltage) := by
  refine ⟨runDisplays_min_le inputs s, runDisplays_max_ge inputs s, ?_⟩
  intro t q hd
  rw [updateDisplay_state, if_neg]
  · exact ⟨rfl, rfl⟩
  · simp [hd]

/-- Witness for C4: monotonicity evaluated on a one-element sample
sequence from the initial state, and invariance of `minVoltage` for an
invocation with the mode flag clear. -/
theorem voltage_minmax_monotone_witness :
    (runDisplays initState [(true, 1/2)]).minVoltage ≤ initState.minVoltage ∧
    (updateDisplay initState 1).1.minVoltage = initState.minVoltage := by
  have h := voltage_minmax_monotone initState [(true, 1/2)]
  exact ⟨h.1, (h.2.2 initState 1 rfl).1⟩

/-- C5: `resetTimeISR` zeroes both counters from any prior state and
leaves every other field (`showVolt`, `minVoltage`, `maxVoltage`, and the
unused `currentDigit`) unchanged. -/
theorem resetTimeISR_spec (s : MCUState) :
    (resetTimeISR s).seconds = 0 ∧ (resetTimeISR s).minutes = 0 ∧
    (resetTimeISR s).showVolt = s.showVolt ∧
    (resetTimeISR s).minVoltage = s.minVoltage ∧
    (resetTimeISR s).maxVoltage = s.maxVoltage ∧
    (resetTimeISR s).currentDigit = s.currentDigit :=
  ⟨rfl, rfl, rfl, rfl, rfl, rfl⟩

/-- C6: `toggleVoltModeISR` sets the mode flag and `releaseVoltModeISR`
clears it, from any prior state, and each handler is idempotent: applying
it twice yields the same state as applying it once. -/
theorem voltMode_handlers_spec (s : MCUState) :
    (toggleVoltModeISR s).showVolt = true ∧
    (releaseVoltModeISR s).showVolt = false ∧
    toggleVoltModeISR (toggleVoltModeISR s) = toggleVoltModeISR s ∧
    releaseVoltModeISR (releaseVoltModeISR s) = releaseVoltModeISR s :=
  ⟨rfl, rfl, rfl, rfl⟩

/-- C7: for every pair of bytes, `writeToShiftRegister` emits exactly:
latch low; the 8 bits of the segment byte, most-significant-bit first,
each as a data event followed by a clock rising-then-falling pulse; the
8 bits of the digit-select byte the same way; latch high.  The k-th data
bit emitted for a byte `v` is `(v >>> (7 - k)) &&& 1`. -/
theorem writeToShiftRegister_spec (bits digit : Nat) :
    writeToShiftRegister bits digit =
      PinEvent.latchLow ::
        ((List.ofFn (fun k : Fin 8 =>
            [PinEvent.data ((bits >>> (7 - k.val)) &&& 1),
             PinEvent.clockHigh, PinEvent.clockLow])).flatten ++
         (List.ofFn (fun k : Fin 8 =>
            [PinEvent.data ((digit >>> (7 - k.val)) &&& 1),
             PinEvent.clockHigh, PinEvent.clockLow])).flatten ++
         [PinEvent.latchHigh]) := rfl

/-- C8 counterexample: a single `updateDisplay` invocation (here from the
initial state with sample 0) does not perform exactly one shift-register
write; its trace contains four latch strobes. -/
theorem updateDisplay_not_one_write :
    ¬ countWrites (updateDisplay initState 0).2.2 = 1 := by
  rw [updateDisplay_events]
  decide

/-- C8 amended: each `updateDisplay` invocation performs exactly four
shift-register writes, one per digit position; each write drives exactly
one digit-select line, since every digit-select byte in `digitPos` is
one-hot. -/
theorem updateDisplay_four_writes (s : MCUState) (sample : ℚ) :
    countWrites (updateDisplay s sample).2.2 = 4 ∧
    (∀ b ∈ digitPos, b ≠ 0 ∧ b &&& (b - 1) = 0) := by
  refine ⟨?_, by decide⟩
  rw [updateDisplay_events]
  split <;> decide

/-- Witness for C8: the write count evaluated on a concrete invocation,
and the one-hot property of the first digit-select byte. -/
theorem updateDisplay_four_writes_witness :
    countWrites (updateDisplay initState 0).2.2 = 4 ∧
    ((1 : Nat) ≠ 0 ∧ (1 : Nat) &&& (1 - 1) = 0) := by
  have h := updateDisplay_four_writes initState 0
  exact ⟨h.1, h.2 1 (by decide)⟩

/-- C9: every state reachable from the initial state under any
interleaving of the ticker callbacks and interrupt handlers satisfies
`0 ≤ seconds ≤ 59` and `0 ≤ minutes ≤ 99`. -/
theorem reachable_timeInv (s : MCUState) (h : Reachable s) : timeInv s := by
  induction h with
  | init => decide
  | time _ ih => exact updateTime_timeInv ih
  | reset _ _ => exact resetTimeISR_timeInv _
  | toggle _ ih => exact ih
  | release _ ih => exact ih
  | disp q _ ih =>
    obtain ⟨hs, hm⟩ := updateDisplay_counters _ q
    rw [timeInv, hs, hm]
    exact ih

/-- Witness for C9: the invariant evaluated at a concrete reachable state,
one `updateTime` step after start. -/
theorem reachable_timeInv_witness : timeInv (updateTime initState) :=
  reachable_timeInv _ (Reachable.time Reachable.init)

/-- C10: every index used to look up the 10-entry segment table is in
range: the digit array actually used by `updateDisplay` (computed from
`dispVal = 0`) has all entries in 0–9, and more generally the digit
decomposition of any nonnegative value has all entries in 0–9; the table
itself has 10 entries. -/
theorem digitBits_index_in_bounds :
    (∀ d ∈ digitsOf 0, 0 ≤ d ∧ d < 10) ∧
    (∀ v : Int, 0 ≤ v → ∀ d ∈ digitsOf v, 0 ≤ d ∧ d < 10) ∧
    digitBits.length = 10 := by
  refine ⟨by decide, ?_, by decide⟩
  intro v hv d hd
  have h1000 : (0 : Int) ≤ Int.tdiv v 1000 := Int.tdiv_nonneg hv (by omega)
  have h100 : (0 : Int) ≤ Int.tdiv v 100 := Int.tdiv_nonneg hv (by omega)
  have h10 : (0 : Int) ≤ Int.tdiv v 10 := Int.tdiv_nonneg hv (by omega)
  simp only [digitsOf, List.mem_cons, List.not_mem_nil, or_false] at hd
  rcases hd with h | h | h | h <;> subst h
  · exact ⟨Int.tmod_nonneg 10 h1000, Int.tmod_lt_of_pos _ (by omega)⟩
  · exact ⟨Int.tmod_nonneg 10 h100, Int.tmod_lt_of_pos _ (by omega)⟩
  · exact ⟨Int.tmod_nonneg 10 h10, Int.tmod_lt_of_pos _ (by omega)⟩
  · exact ⟨Int.tmod_nonneg 10 hv, Int.tmod_lt_of_pos _ (by omega)⟩

/-- Witness for C10: the bound evaluated at the concrete value 165 and its
tens digit 6. -/
theorem digitBits_index_in_bounds_witness :
    (0 : Int) ≤ 6 ∧ (6 : Int) < 10 :=
  digitBits_index_in_bounds.2.1 165 (by decide) 6 (by decide)

end Firmware
